import Mathlib

/-!
Verification of the SolidJS generator backend
(`packages/core/src/generators/solid/index.ts`) of the mitosis repository.

The TypeScript source is shallowly embedded below: each Lean definition
mirrors one function of the source file (imperative in-place mutation of the
node/component JSON becomes explicit state passing; JavaScript template
literals become explicit string concatenation, with literal braces written
as the escapes \x7b and \x7d and literal single quotes as \x27).

Helpers of the repository that live outside the solid generator file
(`hasContext`, `getComponentsUsed`, `checkIsForNode`,
`filterEmptyTextNodes`, the state module import lists) are modelled from the
specification and are marked as such in their doc comments.
-/

namespace SolidGen

/-- Embedding of the mitosis IR `Binding` value:
`{code: string, type?: string, arguments?: string[]}`.
The optional `type` field carries tags such as `"spread"`; `arguments` is
the declared parameter-name list of an event handler (absent means
unspecified, which is distinct from an explicitly empty list). -/
structure Binding where
  code : String
  type : Option String := none
  arguments : Option (List String) := none
deriving Repr, DecidableEq

/-- Embedding of a mitosis IR node (`MitosisNode`).  `properties` and
`bindings` are insertion-ordered key/value maps (JavaScript object
semantics), modelled as association lists.  `metaElse` is the `meta.else`
alternate subtree used by `Show` nodes; `scopeForName`/`scopeIndexName` are
the loop scope fields of a for-node. -/
inductive MitosisNode : Type where
  | mk :
      (name : String) →
      (properties : List (String × String)) →
      (bindings : List (String × Binding)) →
      (children : List MitosisNode) →
      (metaElse : Option MitosisNode) →
      (scopeForName : Option String) →
      (scopeIndexName : Option String) →
      MitosisNode

def MitosisNode.name : MitosisNode → String
  | .mk n _ _ _ _ _ _ => n

def MitosisNode.properties : MitosisNode → List (String × String)
  | .mk _ p _ _ _ _ _ => p

def MitosisNode.bindings : MitosisNode → List (String × Binding)
  | .mk _ _ b _ _ _ _ => b

def MitosisNode.children : MitosisNode → List MitosisNode
  | .mk _ _ _ c _ _ _ => c

def MitosisNode.metaElse : MitosisNode → Option MitosisNode
  | .mk _ _ _ _ m _ _ => m

def MitosisNode.scopeForName : MitosisNode → Option String
  | .mk _ _ _ _ _ f _ => f

def MitosisNode.scopeIndexName : MitosisNode → Option String
  | .mk _ _ _ _ _ _ i => i

/-- Replace the `properties` and `bindings` maps of a node, keeping every
other field (used to express the in-place mutations of the source). -/
def MitosisNode.withMaps : MitosisNode → List (String × String) →
    List (String × Binding) → MitosisNode
  | .mk n _ _ c m f i, p, b => .mk n p b c m f i

/-- JavaScript `delete obj[k]`: remove the key `k` from an association
list (all occurrences; a JavaScript object holds each key at most once). -/
def deleteKey (m : List (String × α)) (k : String) : List (String × α) :=
  m.filter (fun p => p.1 != k)

/-- JavaScript `obj[k] = v`: overwrite in place when the key exists
(keeping its position, as JavaScript objects do), append otherwise. -/
def setKey (m : List (String × α)) (k : String) (v : α) : List (String × α) :=
  if (List.lookup k m).isSome then
    m.map (fun p => if p.1 == k then (k, v) else p)
  else
    m ++ [(k, v)]

theorem lookup_deleteKey_ne {α : Type} (m : List (String × α)) (k k' : String)
    (h : k' ≠ k) : List.lookup k' (deleteKey m k) = List.lookup k' m := by
  induction m with
  | nil => rfl
  | cons p t ih =>
      by_cases hp : p.1 = k
      · have hb : (p.1 != k) = false := by simp [hp]
        have hk : (k' == p.1) = false := by
          simp [hp]
          exact h
        cases p with
        | mk a v =>
            simp only [Prod.fst] at hb hk
            simp [deleteKey, List.filter, hb, List.lookup, hk] at *
            simpa [deleteKey] using ih
      · have hb : (p.1 != k) = true := by simpa using hp
        cases p with
        | mk a v =>
            simp only [Prod.fst] at hb
            simp only [deleteKey, List.filter, hb] at *
            simp only [List.lookup]
            cases hkk : (k' == a) <;> simp [hkk, ih]

theorem lookup_deleteKey_self {α : Type} (m : List (String × α)) (k : String) :
    List.lookup k (deleteKey m k) = none := by
  induction m with
  | nil => rfl
  | cons p t ih =>
      by_cases hp : p.1 = k
      · have hb : (p.1 != k) = false := by simp [hp]
        cases p with
        | mk a v =>
            simp only [Prod.fst] at hb
            simp only [deleteKey, List.filter, hb] at *
            simpa [deleteKey] using ih
      · have hb : (p.1 != k) = true := by simpa using hp
        have hk : (k == p.1) = false := by
          simp
          exact fun hh => hp hh.symm
        cases p with
        | mk a v =>
            simp only [Prod.fst] at hb hk
            simp only [deleteKey, List.filter, hb] at *
            simp only [List.lookup, hk]
            simpa [deleteKey] using ih

/-- JavaScript whitespace as trimmed by `String.prototype.trim` (restricted
to the common ASCII whitespace characters). -/
def isJsWhitespace (c : Char) : Bool :=
  c == ' ' || c == '\t' || c == '\n' || c == '\r'

/-- Executable model of JavaScript `String.prototype.trim`: drop leading
and trailing whitespace. -/
def jsTrim (s : String) : String :=
  ⟨((s.data.dropWhile isJsWhitespace).reverse.dropWhile isJsWhitespace).reverse⟩

/-- The options record `ToSolidOptions` of the generator; only the
`stylesType` field (`"styled-components"` or `"style-tag"`) is consulted by
the functions verified here. -/
structure ToSolidOptions where
  stylesType : String := "styled-components"
deriving Repr, DecidableEq

/-- One `if (json.properties[k]) { staticClasses.push(...); delete ... }`
stanza of `collectClassString` (an empty-string property is falsy in
JavaScript, hence neither pushed nor deleted). -/
def popProp (k : String) (st : List String × List (String × String)) :
    List String × List (String × String) :=
  match List.lookup k st.2 with
  | some v => if v != "" then (st.1 ++ [v], deleteKey st.2 k) else st
  | none => st

/-- One `if (typeof json.bindings[k]?.code === \x27string\x27)` stanza of
`collectClassString`: push the binding's code and delete the binding
(the `typeof` test holds for every present binding in the typed model). -/
def popBinding (k : String) (st : List String × List (String × Binding)) :
    List String × List (String × Binding) :=
  match List.lookup k st.2 with
  | some b => (st.1 ++ [b.code], deleteKey st.2 k)
  | none => st

/-- The truthy read of a property key (what one `popProp` stanza pushes). -/
def truthyRead (k : String) (m : List (String × String)) : List String :=
  match List.lookup k m with
  | some v => if v != "" then [v] else []
  | none => []

/-- The read of a binding key's code (what one `popBinding` stanza pushes). -/
def bindingRead (k : String) (m : List (String × Binding)) : List String :=
  match List.lookup k m with
  | some b => [b.code]
  | none => []

/-- Lines 88–94 of `collectClassString`: the `css(<code>)` helper call,
contributed only when the `css` binding's trimmed code is longer than 4
characters and the styling mode is `styled-components`. -/
def cssRead (m : List (String × Binding)) (options : ToSolidOptions) : List String :=
  match List.lookup "css" m with
  | some b =>
      if (jsTrim b.code).length > 4 && options.stylesType == "styled-components" then
        ["css(" ++ b.code ++ ")"]
      else []
  | none => []

/-- Lines 68–77 of `collectClassString`: accumulate the truthy `class` and
`className` properties into `staticClasses`, deleting each consumed one. -/
def extractStaticClasses (p0 : List (String × String)) :
    List String × List (String × String) :=
  popProp "className" (popProp "class" ([], p0))

/-- Lines 79–95 of `collectClassString`: accumulate the `class` and
`className` binding codes and the conditional `css(...)` call into
`dynamicClasses`, deleting the consumed bindings and always deleting the
`css` binding. -/
def extractDynamicClasses (b0 : List (String × Binding))
    (options : ToSolidOptions) : List String × List (String × Binding) :=
  let st := popBinding "className" (popBinding "class" ([], b0))
  (st.1 ++ cssRead st.2 options, deleteKey st.2 "css")

/-- Embedding of `collectClassString` (solid/index.ts, lines 67–116).
It returns the class attribute value (`none` means no class attribute is
emitted) together with the mutated node. -/
def collectClassString (json : MitosisNode) (options : ToSolidOptions) :
    Option String × MitosisNode :=
  let s := extractStaticClasses json.properties
  let d := extractDynamicClasses json.bindings options
  let staticClasses := s.1
  let dynamicClasses := d.1
  let staticClassesString := String.intercalate " " staticClasses
  let dynamicClassesString := String.intercalate " + \x27 \x27 + " dynamicClasses
  let hasStaticClasses : Bool := staticClasses.length != 0
  let hasDynamicClasses : Bool := dynamicClasses.length != 0
  let res : Option String :=
    if hasStaticClasses && !hasDynamicClasses then
      some ("\"" ++ staticClassesString ++ "\"")
    else if hasDynamicClasses && !hasStaticClasses then
      some ("\x7b" ++ dynamicClassesString ++ "\x7d")
    else if hasDynamicClasses && hasStaticClasses then
      some ("\x7b\"" ++ staticClassesString ++ " \" + " ++ dynamicClassesString ++ "\x7d")
    else none
  (res, json.withMaps s.2 d.2)

/-- The static class sources of a node, read off directly (truthy `class`
and `className` properties, in that order). -/
def staticClassSources (json : MitosisNode) : List String :=
  truthyRead "class" json.properties ++ truthyRead "className" json.properties

/-- The dynamic class sources of a node, read off directly: the `class`
binding, the `className` binding, and the `css(...)` helper call when the
`css` binding passes the length threshold in `styled-components` mode. -/
def dynClassSources (json : MitosisNode) (options : ToSolidOptions) : List String :=
  bindingRead "class" json.bindings ++ bindingRead "className" json.bindings ++
    cssRead json.bindings options

theorem popProp_fst (k : String) (st : List String × List (String × String)) :
    (popProp k st).1 = st.1 ++ truthyRead k st.2 := by
  unfold popProp truthyRead
  cases h : List.lookup k st.2 with
  | none => simp
  | some v => by_cases hv : v = "" <;> simp [hv]

theorem popProp_snd (k k' : String) (st : List String × List (String × String))
    (h : k' ≠ k) : List.lookup k' (popProp k st).2 = List.lookup k' st.2 := by
  unfold popProp
  cases hl : List.lookup k st.2 with
  | none => simp
  | some v =>
      by_cases hv : v = "" <;> simp [hv, lookup_deleteKey_ne _ _ _ h]

theorem popBinding_fst (k : String) (st : List String × List (String × Binding)) :
    (popBinding k st).1 = st.1 ++ bindingRead k st.2 := by
  unfold popBinding bindingRead
  cases h : List.lookup k st.2 with
  | none => simp
  | some b => simp

theorem popBinding_snd (k k' : String) (st : List String × List (String × Binding))
    (h : k' ≠ k) : List.lookup k' (popBinding k st).2 = List.lookup k' st.2 := by
  unfold popBinding
  cases hl : List.lookup k st.2 with
  | none => simp
  | some b => simp [lookup_deleteKey_ne _ _ _ h]

theorem truthyRead_congr (k : String) {m1 m2 : List (String × String)}
    (h : List.lookup k m1 = List.lookup k m2) : truthyRead k m1 = truthyRead k m2 := by
  unfold truthyRead
  rw [h]

theorem bindingRead_congr (k : String) {m1 m2 : List (String × Binding)}
    (h : List.lookup k m1 = List.lookup k m2) : bindingRead k m1 = bindingRead k m2 := by
  unfold bindingRead
  rw [h]

theorem cssRead_congr (options : ToSolidOptions) {m1 m2 : List (String × Binding)}
    (h : List.lookup "css" m1 = List.lookup "css" m2) :
    cssRead m1 options = cssRead m2 options := by
  unfold cssRead
  rw [h]

theorem extractStaticClasses_fst (json : MitosisNode) :
    (extractStaticClasses json.properties).1 = staticClassSources json := by
  unfold extractStaticClasses staticClassSources
  rw [popProp_fst, popProp_fst]
  have h : List.lookup "className" (popProp "class" ([], json.properties)).2 =
      List.lookup "className" json.properties := popProp_snd _ _ _ (by decide)
  rw [truthyRead_congr _ h]
  simp

theorem extractDynamicClasses_fst (json : MitosisNode) (options : ToSolidOptions) :
    (extractDynamicClasses json.bindings options).1 = dynClassSources json options := by
  unfold extractDynamicClasses dynClassSources
  dsimp only
  rw [popBinding_fst, popBinding_fst]
  have h1 : List.lookup "className" (popBinding "class" ([], json.bindings)).2 =
      List.lookup "className" json.bindings := popBinding_snd _ _ _ (by decide)
  have h2 : List.lookup "css"
      (popBinding "className" (popBinding "class" ([], json.bindings))).2 =
      List.lookup "css" json.bindings := by
    rw [popBinding_snd _ _ _ (by decide), popBinding_snd _ _ _ (by decide)]
  rw [bindingRead_congr _ h1, cssRead_congr _ h2]
  simp

/-- Class-composition characterization of `collectClassString` by the 2×2
truth table over static/dynamic source presence. -/
theorem collectClassString_spec (json : MitosisNode) (options : ToSolidOptions) :
    (collectClassString json options).1 =
      (let ss := staticClassSources json
       let ds := dynClassSources json options
       if ss.length != 0 && ds.length == 0 then
         some ("\"" ++ String.intercalate " " ss ++ "\"")
       else if ds.length != 0 && ss.length == 0 then
         some ("\x7b" ++ String.intercalate " + \x27 \x27 + " ds ++ "\x7d")
       else if ds.length != 0 && ss.length != 0 then
         some ("\x7b\"" ++ String.intercalate " " ss ++ " \" + " ++
               String.intercalate " + \x27 \x27 + " ds ++ "\x7d")
       else none) := by
  have hs := extractStaticClasses_fst json
  have hd := extractDynamicClasses_fst json options
  unfold collectClassString
  dsimp only
  rw [hs, hd]
  rcases hss : staticClassSources json with _ | ⟨a, ss'⟩ <;>
    rcases hds : dynClassSources json options with _ | ⟨b, ds'⟩ <;> simp

theorem withMaps_name (n : MitosisNode) (p : List (String × String))
    (b : List (String × Binding)) : (n.withMaps p b).name = n.name := by
  cases n
  rfl

theorem withMaps_properties (n : MitosisNode) (p : List (String × String))
    (b : List (String × Binding)) : (n.withMaps p b).properties = p := by
  cases n
  rfl

theorem withMaps_bindings (n : MitosisNode) (p : List (String × String))
    (b : List (String × Binding)) : (n.withMaps p b).bindings = b := by
  cases n
  rfl

theorem withMaps_children (n : MitosisNode) (p : List (String × String))
    (b : List (String × Binding)) : (n.withMaps p b).children = n.children := by
  cases n
  rfl

theorem collectClassString_bindings (json : MitosisNode) (options : ToSolidOptions) :
    (collectClassString json options).2.bindings =
      deleteKey (popBinding "className" (popBinding "class" ([], json.bindings))).2 "css" := by
  unfold collectClassString extractDynamicClasses
  dsimp only
  rw [withMaps_bindings]

/-- Claim C1: for every element node, the class attribute value produced by
`collectClassString` follows the exhaustive 2×2 composition rule over
static/dynamic class-source presence: static-only yields the quoted literal
of the space-joined static strings; dynamic-only yields the brace-wrapped
expression joining the dynamic sources with the string-join operator
`+ \x27 \x27 +`; both yield a wrapped expression concatenating the quoted
static string (with a trailing space) and the dynamic expression; neither
yields `none`, in which case `blockToSolid` emits no class attribute. -/
theorem C1_class_composition (json : MitosisNode) (options : ToSolidOptions) :
    (collectClassString json options).1 =
      (let ss := staticClassSources json
       let ds := dynClassSources json options
       if ss.length != 0 && ds.length == 0 then
         some ("\"" ++ String.intercalate " " ss ++ "\"")
       else if ds.length != 0 && ss.length == 0 then
         some ("\x7b" ++ String.intercalate " + \x27 \x27 + " ds ++ "\x7d")
       else if ds.length != 0 && ss.length != 0 then
         some ("\x7b\"" ++ String.intercalate " " ss ++ " \" + " ++
               String.intercalate " + \x27 \x27 + " ds ++ "\x7d")
       else none) :=
  collectClassString_spec json options

/-- Claim C9: the `css` binding is always removed by class composition
(whatever the styling mode and the binding's content), and every binding
under a key other than `class`, `className` and `css` is left unchanged. -/
theorem C9_css_binding_always_removed (json : MitosisNode) (options : ToSolidOptions) :
    List.lookup "css" (collectClassString json options).2.bindings = none ∧
    ∀ k : String, k ≠ "class" → k ≠ "className" → k ≠ "css" →
      List.lookup k (collectClassString json options).2.bindings =
        List.lookup k json.bindings := by
  rw [collectClassString_bindings]
  constructor
  · exact lookup_deleteKey_self _ _
  · intro k h1 h2 h3
    rw [lookup_deleteKey_ne _ _ _ h3, popBinding_snd _ _ _ h2, popBinding_snd _ _ _ h1]

/-- Example node: static class `a`, a dynamic `class` binding, a `css`
binding and an unrelated `style` binding. -/
def exNode : MitosisNode :=
  .mk "div" [("class", "a")]
    [("css", { code := "color: red;" }), ("class", { code := "expr" }),
     ("style", { code := "\x7b fontSize: mySize \x7d" })]
    [] none none none

def exOptions : ToSolidOptions := { stylesType := "styled-components" }

theorem C9_css_binding_always_removed_witness :
    List.lookup "css" (collectClassString exNode exOptions).2.bindings = none ∧
    List.lookup "style" (collectClassString exNode exOptions).2.bindings =
      List.lookup "style" exNode.bindings :=
  ⟨(C9_css_binding_always_removed exNode exOptions).1,
   (C9_css_binding_always_removed exNode exOptions).2 "style"
     (by decide) (by decide) (by decide)⟩

/-- Concrete node refuting claim C4 as stated: its `css` binding has the
non-empty code `a`, yet (because the trimmed code is not longer than 4
characters) the helper call `css(a)` is not among the dynamic class sources
and the node gets no class attribute at all. -/
def c4Node : MitosisNode :=
  .mk "div" [] [("css", { code := "a" })] [] none none none

/-- Counterexample to claim C4 as stated: in `styled-components` mode a
node whose `css` binding has the non-empty code `a` contributes no
`css(...)` helper call to the dynamic class sources (the code requires the
trimmed code to be longer than 4 characters), and the class attribute is
absent entirely. -/
theorem C4_counterexample :
    (c4Node.bindings = [("css", { code := "a" })]) ∧
    ("a" : String) ≠ "" ∧
    dynClassSources c4Node exOptions = [] ∧
    (collectClassString c4Node exOptions).1 = none := by
  refine ⟨rfl, by decide, by decide, by decide⟩

/-- Claim C4 (amended): in `styled-components` mode, a node whose `css`
binding has code of trimmed length greater than 4 has the helper call
`css(<code>)` among its dynamic class sources, and class composition then
emits a class attribute. -/
theorem C4_css_helper_amended (json : MitosisNode) (options : ToSolidOptions)
    (b : Binding) (h1 : List.lookup "css" json.bindings = some b)
    (h2 : (jsTrim b.code).length > 4) (h3 : options.stylesType = "styled-components") :
    ("css(" ++ b.code ++ ")") ∈ dynClassSources json options ∧
    (collectClassString json options).1 ≠ none := by
  have hcss : cssRead json.bindings options = ["css(" ++ b.code ++ ")"] := by
    unfold cssRead
    rw [h1]
    have : ((jsTrim b.code).length > 4 && options.stylesType == "styled-components") = true := by
      simp [h2, h3]
    simp [this]
  constructor
  · unfold dynClassSources
    rw [hcss]
    simp
  · have hds : dynClassSources json options ≠ [] := by
      unfold dynClassSources
      rw [hcss]
      simp
    rw [collectClassString_spec]
    rcases hss : staticClassSources json with _ | ⟨a, ss'⟩ <;>
      rcases hds' : dynClassSources json options with _ | ⟨d, ds'⟩ <;>
        simp_all

theorem C4_css_helper_amended_witness :
    ("css(color: red;)" ∈ dynClassSources exNode exOptions) ∧
    (collectClassString exNode exOptions).1 ≠ none :=
  C4_css_helper_amended exNode exOptions { code := "color: red;" }
    (by decide) (by decide) (by decide)

/-- Embedding of `key.startsWith(\x27on\x27)`: the key begins with the
event-handler key two-character sequence. -/
def startsWithOn (k : String) : Bool :=
  match k.data with
  | 'o' :: 'n' :: _ => true
  | _ => false

/-- Embedding of `name.includes(\x27.\x27)`. -/
def includesDot (s : String) : Bool :=
  s.data.contains '.'

/-- Modelled from the spec: `checkIsForNode` (from
`types/mitosis-node.ts`, outside src/) — the iteration-node variant is the
node named `For` carrying the `each` binding and the loop scope. -/
def checkIsForNode (n : MitosisNode) : Bool :=
  n.name == "For"

/-- Modelled from the spec: `filterEmptyTextNodes` (from
`helpers/filter-empty-text-nodes.ts`, outside src/) — keep a node unless it
is a text node whose literal `_text` is whitespace only. -/
def filterEmptyTextNodes (n : MitosisNode) : Bool :=
  match List.lookup "_text" n.properties with
  | some v => jsTrim v != ""
  | none => true

/-- Modelled from the spec: `selfClosingTags` (from `parsers/jsx`, outside
src/) — the tag names whose serialization short-circuits children (HTML
void elements). -/
def selfClosingTags : List String :=
  ["area", "base", "br", "col", "embed", "hr", "img", "input", "link",
   "meta", "source", "track", "wbr"]

/-- JavaScript `v || dflt` for an optional string value: the value when
present and non-empty (truthy), the default otherwise. -/
def jsOrString (v : Option String) (dflt : String) : String :=
  match v with
  | some s => if s != "" then s else dflt
  | none => dflt

/-- Embedding of the per-binding serialization of `blockToSolid`
(lines 196–231): a binding with empty code is skipped
(`if (!code) continue`); a `spread` binding becomes a spread attribute;
an event-prefixed key becomes an inline handler parameterized by the
declared argument names (default `event`), with `onChange` on an `input`
element remapped to `onInput`; a `style` binding's code goes through the
key-casing sub-transform (`babelTransformExpression`, an external
collaborator passed in as `styleTf`); every other binding becomes a
wrapped-expression attribute. -/
def bindingToString (styleTf : String → String) (elName key : String)
    (b : Binding) : String :=
  if b.code == "" then ""
  else if b.type == some "spread" then
    " \x7b...(" ++ b.code ++ ")\x7d "
  else if startsWithOn key then
    let useKey := if key == "onChange" && elName == "input" then "onInput" else key
    " " ++ useKey ++ "=\x7b(" ++ String.intercalate "," (b.arguments.getD ["event"]) ++
      ") => " ++ b.code ++ "\x7d "
  else
    let useValue := if key == "style" then styleTf b.code else b.code
    " " ++ key ++ "=\x7b" ++ useValue ++ "\x7d "

mutual

/-- Embedding of `blockToSolid` (solid/index.ts, lines 145–250).
`styleTf` is the external `babelTransformExpression` style key-casing
collaborator, passed through the recursion unchanged.  Literal braces of
the emitted JSX are written as the escapes \x7b and \x7d. -/
def blockToSolid (styleTf : String → String) (options : ToSolidOptions) :
    MitosisNode → String
  | .mk nm props binds cs metaE forN idxN =>
    let json := MitosisNode.mk nm props binds cs metaE forN idxN
    let tp := (List.lookup "_text" props).getD ""
    if tp != "" then tp
    else
      let tb :=
        match List.lookup "_text" binds with
        | some b => b.code
        | none => ""
      if tb != "" then "\x7b" ++ tb ++ "\x7d"
      else if checkIsForNode json then
        let needsWrapper := cs.length != 1
        let eachCode :=
          match List.lookup "each" binds with
          | some b => b.code
          | none => "undefined"
        let forName := forN.getD "undefined"
        let idxName := jsOrString idxN "index"
        "<For each=\x7b" ++ eachCode ++ "\x7d>\n    \x7b(" ++ forName ++
          ", _index) => \x7b\n      const " ++ idxName ++
          " = _index();\n      return " ++ (if needsWrapper then "<>" else "") ++
          String.intercalate "," (blocksToSolidFiltered styleTf options cs) ++
          "\x7d\x7d\n      " ++ (if needsWrapper then "</>" else "") ++
          "\n    </For>"
      else
        let str0 := if nm == "Fragment" then "<" else "<" ++ nm ++ " "
        let fallback :=
          if nm == "Show" then metaFallback styleTf options metaE else ""
        let cres := collectClassString json options
        let classAttr :=
          match cres.1 with
          | some c => " class=" ++ c ++ " "
          | none => ""
        let propsStr := (cres.2.properties).foldl
          (fun acc p => acc ++ " " ++ p.1 ++ "=\"" ++ p.2 ++ "\" ") ""
        let bindsStr := (cres.2.bindings).foldl
          (fun acc p => acc ++ bindingToString styleTf nm p.1 p.2) ""
        let str := str0 ++ fallback ++ classAttr ++ propsStr ++ bindsStr
        if selfClosingTags.contains nm then str ++ " />"
        else
          str ++ ">" ++
            String.intercalate "\n" (blocksToSolidFiltered styleTf options cs) ++
            (if nm == "Fragment" then "</>" else "</" ++ nm ++ ">")

/-- Fusion of `children.filter(filterEmptyTextNodes).map(blockToSolid)`:
render every child that survives the empty-text-node filter, in order. -/
def blocksToSolidFiltered (styleTf : String → String) (options : ToSolidOptions) :
    List MitosisNode → List String
  | [] => []
  | c :: rest =>
      if filterEmptyTextNodes c then
        blockToSolid styleTf options c :: blocksToSolidFiltered styleTf options rest
      else
        blocksToSolidFiltered styleTf options rest

/-- Lines 183–185: the rendered `meta.else` fallback attribute of a `Show`
node (`json.meta.else` is truthy exactly when the subtree is present). -/
def metaFallback (styleTf : String → String) (options : ToSolidOptions) :
    Option MitosisNode → String
  | some e => "fallback=\x7b" ++ blockToSolid styleTf options e ++ "\x7d"
  | none => ""

end

/-- Identity instance of the external style key-casing collaborator, used
to instantiate witnesses. -/
def idStyle : String → String := fun s => s

/-- List-level substring occurrence test. -/
def listHasSub (pat : List Char) : List Char → Bool
  | [] => pat.isEmpty
  | c :: rest => pat.isPrefixOf (c :: rest) || listHasSub pat rest

/-- Substring test `containsSub s pat`: `pat` occurs inside `s`. -/
def containsSub (s pat : String) : Bool :=
  listHasSub pat.data s.data

/-- Claim C2 (amended): the rendering of a for-node is exactly one `<For>`
iteration wrapper whose iterable is the `each` binding's code, whose
item-binding signature introduces the item under `scope.forName` together
with the index signal `_index` (no destructured index value), whose body
lazily computes the index as a constant bound from the index signal call
(named `scope.indexName` when given and truthy, `index` otherwise), and
which wraps the comma-joined children in a neutral grouping fragment if
and only if the number of direct children differs from one (so also when
there are zero children, which is where the original claim's
`more than one direct child` condition fails). -/
theorem C2_for_node_rendering (styleTf : String → String) (options : ToSolidOptions)
    (props : List (String × String)) (binds : List (String × Binding))
    (cs : List MitosisNode) (metaE : Option MitosisNode)
    (forN idxN : Option String)
    (h1 : List.lookup "_text" props = none)
    (h2 : List.lookup "_text" binds = none) :
    blockToSolid styleTf options (.mk "For" props binds cs metaE forN idxN) =
      "<For each=\x7b" ++
        (match List.lookup "each" binds with
         | some b => b.code
         | none => "undefined") ++ "\x7d>\n    \x7b(" ++
        forN.getD "undefined" ++ ", _index) => \x7b\n      const " ++
        jsOrString idxN "index" ++
        " = _index();\n      return " ++
        (if cs.length != 1 then "<>" else "") ++
        String.intercalate "," (blocksToSolidFiltered styleTf options cs) ++
        "\x7d\x7d\n      " ++ (if cs.length != 1 then "</>" else "") ++
        "\n    </For>" := by
  rw [blockToSolid]
  simp [h1, h2, checkIsForNode, MitosisNode.name]

/-- Example child of the witness for-node: a literal text node. -/
def c2Child : MitosisNode := .mk "div" [("_text", "Hello")] [] [] none none none

theorem C2_for_node_rendering_witness :
    blockToSolid idStyle { stylesType := "styled-components" }
      (.mk "For" [] [("each", { code := "items" })] [c2Child] none (some "item") none) =
      "<For each=\x7b" ++
        (match List.lookup "each" [("each", ({ code := "items" } : Binding))] with
         | some b => b.code
         | none => "undefined") ++ "\x7d>\n    \x7b(" ++
        (some "item").getD "undefined" ++ ", _index) => \x7b\n      const " ++
        jsOrString none "index" ++
        " = _index();\n      return " ++
        (if [c2Child].length != 1 then "<>" else "") ++
        String.intercalate ","
          (blocksToSolidFiltered idStyle { stylesType := "styled-components" } [c2Child]) ++
        "\x7d\x7d\n      " ++ (if [c2Child].length != 1 then "</>" else "") ++
        "\n    </For>" :=
  C2_for_node_rendering idStyle { stylesType := "styled-components" }
    [] [("each", { code := "items" })] [c2Child] none (some "item") none
    rfl rfl

/-- A for-node with zero children. -/
def c2ForNode : MitosisNode :=
  .mk "For" [] [("each", { code := "items" })] [] none (some "item") none

/-- Counterexample to claim C2 as stated: a for-node with zero direct
children (hence not `more than one direct child`) still gets its loop body
wrapped in the neutral grouping fragment `<>`, because the code wraps
whenever the child count differs from one. -/
theorem C2_counterexample :
    c2ForNode.children.length = 0 ∧
    containsSub
      (blockToSolid idStyle { stylesType := "styled-components" } c2ForNode)
      "<>" = true := by
  decide

/-- Claim C8: a binding (with non-empty code, not a spread binding) whose
key begins with the event-handler key sequence `on` is serialized as an
inline handler attribute parameterized by the binding's declared argument
names (default: the single conventional name `event`); the key `onChange`
on an element named `input` is remapped to `onInput`, every other key is
kept. -/
theorem C8_event_binding_serialization (styleTf : String → String)
    (elName key : String) (b : Binding)
    (hc : b.code ≠ "") (hsp : b.type ≠ some "spread")
    (hk : startsWithOn key = true) :
    bindingToString styleTf elName key b =
      " " ++ (if key == "onChange" && elName == "input" then "onInput" else key) ++
      "=\x7b(" ++ String.intercalate "," (b.arguments.getD ["event"]) ++
      ") => " ++ b.code ++ "\x7d " := by
  unfold bindingToString
  have h1 : (b.code == "") = false := by simpa using hc
  have h2 : (b.type == some "spread") = false := by simpa using hsp
  simp [h1, h2, hk]

theorem C8_event_binding_serialization_witness :
    bindingToString idStyle "input" "onChange" { code := "handle(event)" } =
      " onInput=\x7b(event) => handle(event)\x7d " := by
  rw [C8_event_binding_serialization idStyle "input" "onChange"
    { code := "handle(event)" } (by decide) (by decide) (by decide)]
  decide

/-- One `hooks.onUpdate` entry: `{code, deps?}` (the `deps` field is a
serialized dependency-list expression; absent or empty means the entry
declares no dependencies). -/
structure OnUpdateHook where
  code : String
  deps : Option String := none
deriving Repr, DecidableEq

/-- One `context.get` entry: the context-source descriptor `{name}`. -/
structure ContextGetInfo where
  name : String
deriving Repr, DecidableEq

/-- One `context.set` entry: `{name, value?}`.  The structured context
value is kept opaque here as its `stringifyContextValue` serialization
(that helper lives outside the solid generator file). -/
structure ContextSetInfo where
  name : String
  value : Option String := none
deriving Repr, DecidableEq

/-- Embedding of the `MitosisComponent` fields consumed by the solid
generator: name, root children, the two context maps, and the lifecycle
hooks (`hooks.onMount?.code` and the `hooks.onUpdate` entry list). -/
structure MitosisComponent where
  name : String
  children : List MitosisNode
  contextGet : List (String × ContextGetInfo) := []
  contextSet : List (String × ContextSetInfo) := []
  hooksOnMount : Option String := none
  hooksOnUpdate : Option (List OnUpdateHook) := none

mutual

/-- The names of every node of a subtree, in traversal order (the node
itself, then its children, then its `meta.else` subtree). -/
def nodeNames : MitosisNode → List String
  | .mk n _ _ cs me _ _ => n :: (nodesNames cs ++ optNodeNames me)

def nodesNames : List MitosisNode → List String
  | [] => []
  | c :: rest => nodeNames c ++ nodesNames rest

def optNodeNames : Option MitosisNode → List String
  | none => []
  | some c => nodeNames c

end

/-- Modelled from the spec: `getComponentsUsed`
(`helpers/get-components-used.ts`, outside src/) — the set of node names
appearing anywhere in the component's tree, used through membership tests
for the conditional-rendering (`Show`) and iteration (`For`) nodes. -/
def getComponentsUsed (c : MitosisComponent) : List String :=
  nodesNames c.children

/-- Modelled from the spec: `hasContext` (`generators/helpers/context.ts`,
outside src/) — the component uses context when it has any `context.get`
entry or establishes any `context.set` provider used during rendering. -/
def hasContext (c : MitosisComponent) : Bool :=
  !c.contextGet.isEmpty || !c.contextSet.isEmpty

mutual

/-- The traversal condition of `processDynamicComponents`: some node of
the subtree has a `.` in its name. -/
def nodeHasDot : MitosisNode → Bool
  | .mk n _ _ cs me _ _ => includesDot n || nodesHaveDot cs || optHasDot me

def nodesHaveDot : List MitosisNode → Bool
  | [] => false
  | c :: rest => nodeHasDot c || nodesHaveDot rest

def optHasDot : Option MitosisNode → Bool
  | none => false
  | some c => nodeHasDot c

end

mutual

/-- The per-node rewrite of `processDynamicComponents` (lines 42–50): a
node whose name contains `.` first stores the original name as the
`component` binding, then is renamed to `Dynamic`; every subtree is
traversed. -/
def processNode : MitosisNode → MitosisNode
  | .mk n props binds cs me f i =>
      if includesDot n then
        .mk "Dynamic" props (setKey binds "component" { code := n })
          (processNodes cs) (processOptNode me) f i
      else
        .mk n props binds (processNodes cs) (processOptNode me) f i

def processNodes : List MitosisNode → List MitosisNode
  | [] => []
  | c :: rest => processNode c :: processNodes rest

def processOptNode : Option MitosisNode → Option MitosisNode
  | none => none
  | some c => some (processNode c)

end

/-- Embedding of `processDynamicComponents` (solid/index.ts, lines 40–52):
rewrite every dotted-name node of the component tree and report whether
any was found. -/
def processDynamicComponents (c : MitosisComponent) : MitosisComponent × Bool :=
  ({ c with children := processNodes c.children }, nodesHaveDot c.children)

/-- Line 337 of the output assembly: the `Dynamic` import line, emitted
exactly when `processDynamicComponents` found a dotted-name node. -/
def dynamicImportLine (foundDynamicComponents : Bool) : String :=
  if !foundDynamicComponents then ""
  else "import \x7b Dynamic \x7d from \x27solid-js/web\x27;"

/-- The loop body of `addProviderComponents` (lines 258–271): replace the
current root children with the single provider node
`<name>.Provider` (a fresh node via `createMitosisNode`, with a `value`
binding holding the stringified context value when a value is present). -/
def providerValueBindings : Option String → List (String × Binding)
  | some v => [("value", { code := v })]
  | none => []

def wrapProvider (cs : List MitosisNode) (kv : String × ContextSetInfo) :
    List MitosisNode :=
  [MitosisNode.mk (kv.2.name ++ ".Provider") [] (providerValueBindings kv.2.value)
    cs none none none]

/-- Embedding of `addProviderComponents` (solid/index.ts, lines 257–272):
fold the provider wrapping over the `context.set` entries in order. -/
def addProviderComponents (c : MitosisComponent) : MitosisComponent :=
  { c with children := c.contextSet.foldl wrapProvider c.children }

/-- First-occurrence deduplication, as `uniq(S.Eq)` of fp-ts. -/
def uniqAux : List String → List String → List String
  | _, [] => []
  | seen, x :: xs =>
      if seen.contains x then uniqAux seen xs
      else x :: uniqAux (x :: seen) xs

/-- `uniq(S.Eq)` of fp-ts: keep the first occurrence of each string. -/
def uniqStr (l : List String) : List String :=
  uniqAux [] l

/-- Embedding of the `solidJSImports` computation
(solid/index.ts, lines 322–331): the order-stable deduplicated union of
the feature-conditional runtime symbols and the state module's own
solid-js import requirements (`state?.import.solidjs`, passed in as
`stateSolidImports` since the state module lives outside this file). -/
def solidJSImports (json : MitosisComponent) (stateSolidImports : List String) :
    List String :=
  uniqStr (List.filterMap id
    ([if hasContext json then some "useContext" else none,
      if (getComponentsUsed json).contains "Show" then some "Show" else none,
      if (getComponentsUsed json).contains "For" then some "For" else none,
      if (json.hooksOnMount.getD "") != "" then some "onMount" else none]
     ++ (if (json.hooksOnUpdate.getD []).length != 0 then
           [some "on", some "createEffect"]
         else [])
     ++ stateSolidImports.map some))

/-- The per-entry generator of the `hooks.onUpdate` assembly section
(lines 353–370): an entry with truthy `deps` yields one named function
plus one dependency-keyed `createEffect(on(...))` call; an entry without
`deps` yields the empty string (the documented skipped case). -/
def onUpdateEntryCode (index : Nat) (hook : OnUpdateHook) : String :=
  if (hook.deps.getD "") != "" then
    let hookName := "onUpdateFn_" ++ toString index
    "\n                    function " ++ hookName ++ "() \x7b " ++ hook.code ++
      " \x7d;\n                    createEffect(on(() => " ++ hook.deps.getD "" ++
      ", " ++ hookName ++ "));\n                  "
  else ""

/-- `hooks.onUpdate.map((hook, index) => ...)` with its running index. -/
def onUpdateCodes (index : Nat) : List OnUpdateHook → List String
  | [] => []
  | h :: t => onUpdateEntryCode index h :: onUpdateCodes (index + 1) t

/-- The whole `hooks.onUpdate` block of the output assembly: the mapped
entries joined by a newline when the hook list is present, the empty
string otherwise. -/
def onUpdateSection (hooks : Option (List OnUpdateHook)) : String :=
  match hooks with
  | some l => String.intercalate "\n" (onUpdateCodes 0 l)
  | none => ""

theorem mem_uniqAux (a : String) (seen l : List String) :
    a ∈ uniqAux seen l ↔ a ∈ l ∧ a ∉ seen := by
  induction l generalizing seen with
  | nil => simp [uniqAux]
  | cons x xs ih =>
      by_cases hx : x ∈ seen
      · have hc : seen.contains x = true := List.elem_iff.mpr hx
        rw [uniqAux, hc]
        simp only [if_true]
        rw [ih]
        constructor
        · rintro ⟨h1, h2⟩
          exact ⟨List.mem_cons_of_mem _ h1, h2⟩
        · rintro ⟨h1, h2⟩
          rcases List.mem_cons.mp h1 with h1 | h1
          · exact absurd (h1 ▸ hx) h2
          · exact ⟨h1, h2⟩
      · have hc : seen.contains x = false := by
          rw [Bool.eq_false_iff]
          intro hcc
          exact hx (List.elem_iff.mp hcc)
        rw [uniqAux, hc]
        simp only [Bool.false_eq_true, if_false]
        rw [List.mem_cons, List.mem_cons, ih]
        constructor
        · rintro (h1 | ⟨h1, h2⟩)
          · exact ⟨Or.inl h1, h1 ▸ hx⟩
          · refine ⟨Or.inr h1, fun hs => h2 (List.mem_cons_of_mem _ hs)⟩
        · rintro ⟨h1 | h1, h2⟩
          · exact Or.inl h1
          · by_cases hax : a = x
            · exact Or.inl hax
            · refine Or.inr ⟨h1, fun hs => ?_⟩
              rcases List.mem_cons.mp hs with hs | hs
              · exact hax hs
              · exact h2 hs

theorem mem_uniqStr (a : String) (l : List String) :
    a ∈ uniqStr l ↔ a ∈ l := by
  rw [uniqStr, mem_uniqAux]
  simp

theorem lookup_map_overwrite {α : Type} (m : List (String × α)) (k : String) (v : α)
    (h : (List.lookup k m).isSome) :
    List.lookup k (m.map fun p => if p.1 == k then (k, v) else p) = some v := by
  induction m with
  | nil => simp [List.lookup] at h
  | cons p t ih =>
      cases p with
      | mk a w =>
          rw [List.map_cons]
          by_cases ha : a = k
          · subst ha
            have hq : ((a, w).1 == a) = true := by simp
            rw [if_pos hq, List.lookup_cons_self]
          · have hne : ((a, w).1 == k) = false := by simpa using ha
            have hne' : (k == a) = false := by
              simp
              exact fun hh => ha hh.symm
            have h' : (List.lookup k t).isSome := by
              simpa [List.lookup, hne'] using h
            rw [if_neg (by simp [hne])]
            calc List.lookup k ((a, w) :: t.map fun p => if p.1 == k then (k, v) else p)
                = List.lookup k (t.map fun p => if p.1 == k then (k, v) else p) := by
                  simp [List.lookup, hne']
              _ = some v := ih h'

theorem lookup_append_last {α : Type} (m : List (String × α)) (k : String) (v : α)
    (h : List.lookup k m = none) :
    List.lookup k (m ++ [(k, v)]) = some v := by
  induction m with
  | nil => simp [List.lookup]
  | cons p t ih =>
      cases p with
      | mk a w =>
          by_cases ha : k = a
          · simp [List.lookup, ha] at h
          · have hne : (k == a) = false := by simpa using ha
            simp only [List.lookup, hne] at h
            simp only [List.cons_append, List.lookup, hne]
            exact ih h

theorem lookup_setKey_self {α : Type} (m : List (String × α)) (k : String) (v : α) :
    List.lookup k (setKey m k v) = some v := by
  unfold setKey
  by_cases h : (List.lookup k m).isSome
  · rw [if_pos h]
    exact lookup_map_overwrite m k v h
  · rw [if_neg h]
    exact lookup_append_last m k v (Option.not_isSome_iff_eq_none.mp h)

theorem includesDot_provider (s : String) :
    includesDot (s ++ ".Provider") = true := by
  unfold includesDot
  have hd : (s ++ ".Provider").data = s.data ++ (".Provider").data := rfl
  rw [hd]
  rw [List.elem_iff]
  exact List.mem_append_right _ (by decide)

theorem nodeHasDot_of_name (n : MitosisNode) (h : includesDot n.name = true) :
    nodeHasDot n = true := by
  cases n with
  | mk nm props binds cs me f i =>
      rw [nodeHasDot]
      simp only [MitosisNode.name] at h
      simp [h]

theorem nodesHaveDot_of_mem (l : List MitosisNode) (n : MitosisNode)
    (hmem : n ∈ l) (h : nodeHasDot n = true) : nodesHaveDot l = true := by
  induction l with
  | nil => cases hmem
  | cons c rest ih =>
      rw [nodesHaveDot]
      rcases List.mem_cons.mp hmem with hm | hm
      · rw [hm] at h
        simp [h]
      · simp [ih hm]

theorem nodeHasDot_mk_self (nm : String) (props : List (String × String))
    (binds : List (String × Binding)) (cs : List MitosisNode)
    (me : Option MitosisNode) (f i : Option String)
    (h : includesDot nm = true) :
    nodeHasDot (.mk nm props binds cs me f i) = true := by
  rw [nodeHasDot]
  simp [h]

theorem nodeHasDot_mk_children (nm : String) (props : List (String × String))
    (binds : List (String × Binding)) (cs : List MitosisNode)
    (me : Option MitosisNode) (f i : Option String)
    (h : nodesHaveDot cs = true) :
    nodeHasDot (.mk nm props binds cs me f i) = true := by
  rw [nodeHasDot]
  simp [h]

theorem nodeHasDot_mk_meta (nm : String) (props : List (String × String))
    (binds : List (String × Binding)) (cs : List MitosisNode)
    (me : Option MitosisNode) (f i : Option String)
    (h : optHasDot me = true) :
    nodeHasDot (.mk nm props binds cs me f i) = true := by
  rw [nodeHasDot]
  simp [h]

theorem nodesHaveDot_cons_left (c : MitosisNode) (rest : List MitosisNode)
    (h : nodeHasDot c = true) : nodesHaveDot (c :: rest) = true := by
  rw [nodesHaveDot]
  simp [h]

theorem nodesHaveDot_cons_right (c : MitosisNode) (rest : List MitosisNode)
    (h : nodesHaveDot rest = true) : nodesHaveDot (c :: rest) = true := by
  rw [nodesHaveDot]
  simp [h]

mutual

/-- A dotted name occurring anywhere in a subtree (at any depth, children
and `meta.else` subtrees included) makes the traversal condition of
`processDynamicComponents` true for that subtree. -/
theorem hasDot_of_mem_nodeNames : ∀ (m : MitosisNode) (s : String),
    s ∈ nodeNames m → includesDot s = true → nodeHasDot m = true
  | .mk nm props binds cs me f i, s, hmem, hdot =>
      have hmem' : s = nm ∨ s ∈ nodesNames cs ++ optNodeNames me :=
        List.mem_cons.mp (by rwa [nodeNames] at hmem)
      Or.elim hmem'
        (fun heq => nodeHasDot_mk_self nm props binds cs me f i (heq ▸ hdot))
        (fun h2 => Or.elim (List.mem_append.mp h2)
          (fun hcs => nodeHasDot_mk_children nm props binds cs me f i
            (hasDot_of_mem_nodesNames cs s hcs hdot))
          (fun hme => nodeHasDot_mk_meta nm props binds cs me f i
            (hasDot_of_mem_optNames me s hme hdot)))

theorem hasDot_of_mem_nodesNames : ∀ (l : List MitosisNode) (s : String),
    s ∈ nodesNames l → includesDot s = true → nodesHaveDot l = true
  | [], s, hmem, _ => absurd (by rwa [nodesNames] at hmem) (List.not_mem_nil s)
  | c :: rest, s, hmem, hdot =>
      have hm2 : s ∈ nodeNames c ++ nodesNames rest := by rwa [nodesNames] at hmem
      Or.elim (List.mem_append.mp hm2)
        (fun hc => nodesHaveDot_cons_left c rest
          (hasDot_of_mem_nodeNames c s hc hdot))
        (fun hr => nodesHaveDot_cons_right c rest
          (hasDot_of_mem_nodesNames rest s hr hdot))

theorem hasDot_of_mem_optNames : ∀ (o : Option MitosisNode) (s : String),
    s ∈ optNodeNames o → includesDot s = true → optHasDot o = true
  | none, s, hmem, _ => absurd (by rwa [optNodeNames] at hmem) (List.not_mem_nil s)
  | some c, s, hmem, hdot =>
      have h1 : s ∈ nodeNames c := by rwa [optNodeNames] at hmem
      hasDot_of_mem_nodeNames c s h1 hdot

end

/-- Claim C6: every node whose name contains a `.` is rewritten by the
dynamic-component pass to the dynamic-tag marker `Dynamic`, with the
original dotted name stored as the `component` binding's code, and the
presence of such a dotted name anywhere in the component's tree (at any
depth — `traverse` visits every node) makes the pass report success,
which emits the `Dynamic` import line. -/
theorem C6_dynamic_component_rewrite (c : MitosisComponent) (n : MitosisNode)
    (hocc : n.name ∈ nodesNames c.children) (hdot : includesDot n.name = true) :
    (processNode n).name = "Dynamic" ∧
    List.lookup "component" (processNode n).bindings = some { code := n.name } ∧
    (processDynamicComponents c).1.children = processNodes c.children ∧
    (processDynamicComponents c).2 = true ∧
    dynamicImportLine (processDynamicComponents c).2 =
      "import \x7b Dynamic \x7d from \x27solid-js/web\x27;" := by
  have hfound : (processDynamicComponents c).2 = true := by
    unfold processDynamicComponents
    exact hasDot_of_mem_nodesNames c.children n.name hocc hdot
  refine ⟨?_, ?_, rfl, hfound, ?_⟩
  · cases n with
    | mk nm props binds cs me f i =>
        rw [processNode]
        simp only [MitosisNode.name] at hdot
        simp [hdot, MitosisNode.name]
  · cases n with
    | mk nm props binds cs me f i =>
        rw [processNode]
        simp only [MitosisNode.name] at hdot
        simp only [hdot, if_pos, MitosisNode.bindings, MitosisNode.name]
        exact lookup_setKey_self _ _ _
  · rw [hfound]
    rfl

/-- Example component for the C6 witness: the dotted-name node `foo.bar`
sits nested inside a plain `div` root child, not at the root. -/
def c6Component : MitosisComponent :=
  { name := "Comp"
    children := [.mk "div" [] []
      [.mk "foo.bar" [("id", "x")] [] [] none none none] none none none] }

theorem C6_dynamic_component_rewrite_witness :
    (processNode (.mk "foo.bar" [("id", "x")] [] [] none none none)).name = "Dynamic" ∧
    List.lookup "component"
      (processNode (.mk "foo.bar" [("id", "x")] [] [] none none none)).bindings =
      some { code := "foo.bar" } ∧
    (processDynamicComponents c6Component).1.children = processNodes c6Component.children ∧
    (processDynamicComponents c6Component).2 = true ∧
    dynamicImportLine (processDynamicComponents c6Component).2 =
      "import \x7b Dynamic \x7d from \x27solid-js/web\x27;" :=
  C6_dynamic_component_rewrite c6Component
    (.mk "foo.bar" [("id", "x")] [] [] none none none)
    (by decide) (by decide)

/-- Claim C7: an `onUpdate` entry with truthy declared dependencies yields
exactly one generated effect-registration — a named function
`onUpdateFn_<index>` holding the entry's code plus one dependency-keyed
`createEffect(on(...))` call referring to that function — while an entry
without declared dependencies yields the empty string (silently skipped,
no error raised). -/
theorem C7_on_update_entries (i : Nat) (hook : OnUpdateHook) :
    ((hook.deps.getD "") ≠ "" →
      onUpdateEntryCode i hook =
        "\n                    function " ++ ("onUpdateFn_" ++ toString i) ++
          "() \x7b " ++ hook.code ++
          " \x7d;\n                    createEffect(on(() => " ++
          hook.deps.getD "" ++ ", " ++ ("onUpdateFn_" ++ toString i) ++
          "));\n                  ") ∧
    ((hook.deps.getD "") = "" → onUpdateEntryCode i hook = "") := by
  constructor
  · intro h
    have hb : ((hook.deps.getD "") != "") = true := by simpa using h
    unfold onUpdateEntryCode
    rw [if_pos hb]
  · intro h
    have hb : ((hook.deps.getD "") != "") = false := by simpa using h
    unfold onUpdateEntryCode
    rw [hb]
    simp

theorem C7_on_update_entries_witness :
    onUpdateEntryCode 0 { code := "refresh()", deps := some "[state.a]" } =
      "\n                    function " ++ ("onUpdateFn_" ++ toString 0) ++
        "() \x7b " ++ "refresh()" ++
        " \x7d;\n                    createEffect(on(() => " ++
        (some "[state.a]" : Option String).getD "" ++ ", " ++
        ("onUpdateFn_" ++ toString 0) ++ "));\n                  " ∧
    onUpdateEntryCode 1 { code := "refresh()" } = "" :=
  ⟨(C7_on_update_entries 0 { code := "refresh()", deps := some "[state.a]" }).1
      (by decide),
   (C7_on_update_entries 1 { code := "refresh()" }).2 rfl⟩

theorem mem_filterMap_id {α : Type} (a : α) (l : List (Option α)) :
    a ∈ List.filterMap id l ↔ some a ∈ l := by
  simp [List.mem_filterMap]

theorem some_ne_ite_opt (x s : String) (cond : Bool) (hxs : x ≠ s) :
    ¬ (some x = if cond = true then some s else none) := by
  cases cond <;> simp [hxs]

/-- Concrete component refuting claim C3 as stated: its only `onUpdate`
entry has no `deps` field. -/
def c3Component : MitosisComponent :=
  { name := "Comp"
    children := []
    hooksOnUpdate := some [{ code := "doSomething()" }] }

/-- Counterexample to claim C3 as stated: a component whose only
`hooks.onUpdate` entry lacks a `deps` field still gets both
reactive-effect import symbols, because the code keys the import on the
mere presence of a non-empty `onUpdate` list. -/
theorem C3_counterexample :
    (∀ h ∈ c3Component.hooksOnUpdate.getD [], h.deps.getD "" = "") ∧
    "on" ∈ solidJSImports c3Component [] ∧
    "createEffect" ∈ solidJSImports c3Component [] := by
  refine ⟨by decide, by decide, by decide⟩

/-- Claim C3 (amended): provided the state module contributes neither
symbol itself, the aggregated import set contains the reactive-effect
symbols `on` and `createEffect` if and only if the `hooks.onUpdate` list
is present and non-empty — regardless of whether any entry declares
dependencies. -/
theorem C3_reactive_imports_amended (c : MitosisComponent) (st : List String)
    (h1 : "on" ∉ st) (h2 : "createEffect" ∉ st) :
    ("on" ∈ solidJSImports c st ∧ "createEffect" ∈ solidJSImports c st) ↔
      c.hooksOnUpdate.getD [] ≠ [] := by
  constructor
  · rintro ⟨hon, -⟩
    by_contra hne
    have hu : c.hooksOnUpdate.getD [] = [] := hne
    unfold solidJSImports at hon
    rw [mem_uniqStr, mem_filterMap_id] at hon
    have h5 : ((c.hooksOnUpdate.getD []).length != 0) = false := by simp [hu]
    rw [h5] at hon
    simp only [Bool.false_eq_true, if_false, List.append_nil, List.mem_append,
      List.mem_cons, List.not_mem_nil, or_false] at hon
    rcases hon with (h | h | h | h) | hmap
    · exact some_ne_ite_opt _ _ _ (by decide) h
    · exact some_ne_ite_opt _ _ _ (by decide) h
    · exact some_ne_ite_opt _ _ _ (by decide) h
    · exact some_ne_ite_opt _ _ _ (by decide) h
    · rcases List.mem_map.mp hmap with ⟨x, hx, he⟩
      have hxe : x = "on" := by simpa using he
      subst hxe
      exact h1 hx
  · intro hne
    have h5 : ((c.hooksOnUpdate.getD []).length != 0) = true := by
      simpa [List.length_eq_zero] using hne
    constructor <;>
      · unfold solidJSImports
        rw [mem_uniqStr, mem_filterMap_id, h5]
        simp

theorem C3_reactive_imports_amended_witness :
    ("on" ∈ solidJSImports c3Component [] ∧
     "createEffect" ∈ solidJSImports c3Component []) ↔
      c3Component.hooksOnUpdate.getD [] ≠ [] :=
  C3_reactive_imports_amended c3Component []
    (List.not_mem_nil _) (List.not_mem_nil _)

/-- Claim C5: a component with no context usage, no `Show` or `For` node,
no lifecycle hooks and no state-module import requirements gets the
empty import set, and adding exactly one `onMount` hook with non-empty
code to it yields exactly the deduplicated singleton `onMount`. -/
theorem C5_import_minimality (c : MitosisComponent)
    (hg : c.contextGet = []) (hsn : c.contextSet = [])
    (hshow : (getComponentsUsed c).contains "Show" = false)
    (hfor : (getComponentsUsed c).contains "For" = false)
    (hupd : c.hooksOnUpdate.getD [] = []) :
    (c.hooksOnMount.getD "" = "" → solidJSImports c [] = []) ∧
    (∀ code : String, code ≠ "" →
      solidJSImports { c with hooksOnMount := some code } [] = ["onMount"]) := by
  have hctx : hasContext c = false := by
    unfold hasContext
    rw [hg, hsn]
    rfl
  have h5 : ((c.hooksOnUpdate.getD []).length != 0) = false := by simp [hupd]
  constructor
  · intro hm
    unfold solidJSImports
    rw [hctx, hshow, hfor]
    have h4 : ((c.hooksOnMount.getD "") != "") = false := by simp [hm]
    rw [h4, h5]
    rfl
  · intro code hcode
    unfold solidJSImports
    have e1 : hasContext { c with hooksOnMount := some code } = hasContext c := rfl
    have e2 : getComponentsUsed { c with hooksOnMount := some code } =
        getComponentsUsed c := rfl
    have e3 : ({ c with hooksOnMount := some code } : MitosisComponent).hooksOnUpdate =
        c.hooksOnUpdate := rfl
    have e4 : ({ c with hooksOnMount := some code } : MitosisComponent).hooksOnMount =
        some code := rfl
    rw [e1, e2, e3, e4, hctx, hshow, hfor]
    have h4 : (((some code : Option String).getD "") != "") = true := by
      simpa using hcode
    rw [h4, h5]
    rfl

/-- Example component for the C5 witness: a single plain node, no hooks,
no context. -/
def c5Component : MitosisComponent :=
  { name := "Comp"
    children := [.mk "div" [("class", "a")] [] [] none none none] }

theorem C5_import_minimality_witness :
    solidJSImports c5Component [] = [] ∧
    solidJSImports { c5Component with hooksOnMount := some "console.log(1)" } [] =
      ["onMount"] :=
  ⟨(C5_import_minimality c5Component rfl rfl (by decide) (by decide) rfl).1 rfl,
   (C5_import_minimality c5Component rfl rfl (by decide) (by decide) rfl).2
     "console.log(1)" (by decide)⟩

/-- Claim C10: a component with at least one `context.set` entry has its
root children replaced by a single provider node named
`<ContextName>.Provider` (the name of the last entry, since each entry
re-wraps the previous children); that generated name always contains a
`.`, so the dynamic-component pass — which runs after provider wrapping in
`componentToSolid` — rewrites the provider to the dynamic-tag marker
`Dynamic` with a `component` binding whose code is the literal
`<ContextName>.Provider` string, and reports success, forcing the
dynamic-tag import. -/
theorem C10_providers_via_dynamic_tag (c : MitosisComponent)
    (init : List (String × ContextSetInfo)) (k : String) (info : ContextSetInfo)
    (h : c.contextSet = init ++ [(k, info)]) :
    ∃ inner : List MitosisNode,
      (addProviderComponents c).children =
        [MitosisNode.mk (info.name ++ ".Provider") []
          (providerValueBindings info.value) inner none none none] ∧
      includesDot (info.name ++ ".Provider") = true ∧
      (processDynamicComponents (addProviderComponents c)).2 = true ∧
      (processDynamicComponents (addProviderComponents c)).1.children =
        [MitosisNode.mk "Dynamic" []
          (setKey (providerValueBindings info.value) "component"
            { code := info.name ++ ".Provider" })
          (processNodes inner) none none none] ∧
      List.lookup "component"
        (setKey (providerValueBindings info.value) "component"
          { code := info.name ++ ".Provider" }) =
        some { code := info.name ++ ".Provider" } := by
  have hch : (addProviderComponents c).children =
      [MitosisNode.mk (info.name ++ ".Provider") []
        (providerValueBindings info.value)
        (init.foldl wrapProvider c.children) none none none] := by
    show c.contextSet.foldl wrapProvider c.children = _
    rw [h, List.foldl_append]
    rfl
  refine ⟨init.foldl wrapProvider c.children, hch, includesDot_provider _, ?_, ?_,
    lookup_setKey_self _ _ _⟩
  · show nodesHaveDot (addProviderComponents c).children = true
    rw [hch]
    simp [nodesHaveDot, nodeHasDot, includesDot_provider]
  · show processNodes (addProviderComponents c).children = _
    rw [hch]
    simp [processNodes, processNode, processOptNode, includesDot_provider]

/-- Example component for the C10 witness: one `context.set` entry, one
plain root child. -/
def c10Component : MitosisComponent :=
  { name := "Comp"
    children := [.mk "div" [] [] [] none none none]
    contextSet := [("Ctx", { name := "MyContext" })] }

theorem C10_providers_via_dynamic_tag_witness :
    ∃ inner : List MitosisNode,
      (addProviderComponents c10Component).children =
        [MitosisNode.mk ("MyContext" ++ ".Provider") []
          (providerValueBindings none) inner none none none] ∧
      includesDot ("MyContext" ++ ".Provider") = true ∧
      (processDynamicComponents (addProviderComponents c10Component)).2 = true ∧
      (processDynamicComponents (addProviderComponents c10Component)).1.children =
        [MitosisNode.mk "Dynamic" []
          (setKey (providerValueBindings none) "component"
            { code := "MyContext" ++ ".Provider" })
          (processNodes inner) none none none] ∧
      List.lookup "component"
        (setKey (providerValueBindings none) "component"
          { code := "MyContext" ++ ".Provider" }) =
        some { code := "MyContext" ++ ".Provider" } :=
  C10_providers_via_dynamic_tag c10Component [] "Ctx" { name := "MyContext" } rfl

end SolidGen
